import Mathlib

/-!
Verification development for the qitmeer repository snapshot.

Three components are embedded:

* the hashgraph consensus core.  The repository snapshot contains the
  engine's reference test file (`initHashgraph`, `initRoundHashgraph`,
  `initConsensusHashgraph`, `initFunkyHashgraph` and the tests around
  them) but not the engine implementation itself, so the engine below is
  modelled from the specification; the concrete graphs and expected
  values come from the test file.
* the Conflux block-DAG ordering (`conflux.go`), embedded from source.
* the transaction-script validator (`ValidateTransactionScripts` /
  `txValidator.Validate`), embedded from source with the external
  script engine abstracted as an oracle.

Conventions for the hashgraph model: an event's content hash is
modelled as a creation-sequence number `eid : Nat` (distinct events get
distinct ids, parents are created before children); wall-clock
timestamps are modelled by the same creation sequence; signatures are
modelled as distinct naturals.  Missing parent references (the empty
hash string) are `none`.
-/

namespace Hashgraph

/-- Modelled from the spec: an immutable event record (payload, the two
parent references, creator, creator-local index) together with its
derived creation id, timestamp and modelled signature. -/
structure HgEvent where
  eid : Nat
  creator : Nat
  index : Nat
  selfParent : Option Nat
  otherParent : Option Nat
  payload : List (List Nat)
  ts : Nat
  sig : Nat
deriving DecidableEq, Repr

abbrev Graph := List HgEvent

/-- Store lookup by content hash (modelled id). -/
def getEvent (g : Graph) (x : Nat) : Option HgEvent :=
  g.find? (fun e => e.eid == x)

/-- Modelled from the spec: `superMajority = 2*n/3 + 1` for `n` participants. -/
def superMajority (n : Nat) : Nat := 2 * n / 3 + 1

/-- Canonical form of a graph: events listed in creation (id) order.
Two engines that accepted the same event set have the same canonical
graph whatever their insertion orders were. -/
def canon (g : Graph) : Graph :=
  ((g.map (fun e => e.eid)).insertionSort (· ≤ ·)).filterMap
    (fun i => g.find? (fun e => e.eid == i))

/-- An event coordinate: `(index, eid)` of an event of one participant,
`none` when no such event exists. -/
abbrev Coord := Option (Nat × Nat)

abbrev CoordRow := List Coord

/-- Coordinate vectors indexed by event id. -/
abbrev CoordTab := List (Nat × CoordRow)

def coordAt (tab : CoordTab) (h p : Nat) : Coord :=
  ((tab.lookup h).getD []).getD p none

/-- Pointwise maximum (by index) of two `lastAncestors` rows. -/
def laMergeRow (r1 r2 : CoordRow) : CoordRow :=
  r1.zipWith (fun a b =>
    match a, b with
    | none, b => b
    | a, none => a
    | some (i1, h1), some (i2, h2) =>
        if i1 < i2 then some (i2, h2) else some (i1, h1)) r2

def rowOfOpt (tab : CoordTab) (n : Nat) (x : Option Nat) : CoordRow :=
  match x with
  | none => List.replicate n none
  | some h => (tab.lookup h).getD (List.replicate n none)

/-- Modelled from the spec (`InitEventCoordinates`): `lastAncestors`
rows for every event, computed along the creation order; an event's row
is the per-participant maximum of its parents' rows with its own entry
set for its creator. -/
def laTable (n : Nat) (g : Graph) : CoordTab :=
  g.foldl (fun tab e =>
    let r := laMergeRow (rowOfOpt tab n e.selfParent) (rowOfOpt tab n e.otherParent)
    tab ++ [(e.eid, r.set e.creator (some (e.index, e.eid)))]) []

/-- Modelled from the spec: `Ancestor(x, y)` holds iff the most recent
event of `y`'s creator among `x`'s ancestors has index at least
`y.index`. -/
def Ancestor (g : Graph) (la : CoordTab) (x y : Nat) : Bool :=
  match getEvent g x, getEvent g y with
  | some _, some ey =>
    match coordAt la x ey.creator with
    | some (i, _) => ey.index ≤ i
    | none => false
  | _, _ => false

/-- Modelled from the spec: `SelfAncestor(x, y)` holds iff the events
share a creator and `x`'s index is at least `y`'s. -/
def SelfAncestor (g : Graph) (x y : Nat) : Bool :=
  match getEvent g x, getEvent g y with
  | some ex, some ey => x == y || (ex.creator == ey.creator && ey.index ≤ ex.index)
  | _, _ => false

/-- Modelled from the spec: in the fork-rejecting engine `See`
coincides with `Ancestor`. -/
def See (g : Graph) (la : CoordTab) (x y : Nat) : Bool := Ancestor g la x y

/-- Modelled from the spec: `firstDescendants` row of one event: for
each participant `p` the earliest event of `p` that has the event as an
ancestor. -/
def fdRow (n : Nat) (g : Graph) (la : CoordTab) (y : Nat) : CoordRow :=
  g.foldl (fun row e =>
    if Ancestor g la e.eid y then
      match row.getD e.creator none with
      | none => row.set e.creator (some (e.index, e.eid))
      | some (i, h) =>
          if e.index < i then row.set e.creator (some (e.index, e.eid))
          else row.set e.creator (some (i, h))
    else row) (List.replicate n none)

def fdTable (n : Nat) (g : Graph) (la : CoordTab) : CoordTab :=
  g.map (fun y => (y.eid, fdRow n g la y.eid))

/-- Modelled from the spec: `StronglySee(x, y)` counts the participants
`p` with `y.firstDescendants[p].index ≤ x.lastAncestors[p].index` and
compares the count with the super-majority threshold. -/
def StronglySee (n : Nat) (g : Graph) (la fd : CoordTab) (x y : Nat) : Bool :=
  match getEvent g x, getEvent g y with
  | some _, some _ =>
    let cnt := (List.range n).countP (fun p =>
      match coordAt fd y p, coordAt la x p with
      | some (fi, _), some (li, _) => fi ≤ li
      | _, _ => false)
    superMajority n ≤ cnt
  | _, _ => false

/-- Modelled from the spec (`OldestSelfAncestorToSee`): the first
descendant of `y` by `x`'s creator, provided it is no later than `x`
itself. -/
def OldestSelfAncestorToSee (g : Graph) (fd : CoordTab) (x y : Nat) : Option Nat :=
  match getEvent g x with
  | none => none
  | some ex =>
    match coordAt fd y ex.creator with
    | some (i, h) => if i ≤ ex.index then some h else none
    | none => none

/-- Round assignment: event id mapped to `(round, isWitness)`. -/
abbrev RTab := List (Nat × (Nat × Bool))

def roundOf (rt : RTab) (x : Nat) : Int :=
  match rt.lookup x with
  | some (r, _) => (r : Int)
  | none => -1

def roundOfOpt (rt : RTab) (x : Option Nat) : Int :=
  match x with
  | none => -1
  | some h => roundOf rt h

/-- Modelled from the spec: the maximum of the parents' rounds, `0` for
an initial event, missing parents contributing `-1`. -/
def ParentRound (rt : RTab) (e : HgEvent) : Int :=
  if e.selfParent == none && e.otherParent == none then 0
  else max (roundOfOpt rt e.selfParent) (roundOfOpt rt e.otherParent)

def witnessesOfRound (rt : RTab) (r : Nat) : List Nat :=
  rt.filterMap (fun p => if p.2.2 && p.2.1 == r then some p.1 else none)

/-- Modelled from the spec: `RoundInc(e)` holds iff `e` strongly sees a
super-majority of the witnesses of `ParentRound(e)`. -/
def RoundInc (n : Nat) (g : Graph) (la fd : CoordTab) (rt : RTab) (e : HgEvent) : Bool :=
  let pr := ParentRound rt e
  if pr < 0 then false
  else superMajority n ≤
    ((witnessesOfRound rt pr.toNat).filter
      (fun w => StronglySee n g la fd e.eid w)).length

/-- Modelled from the spec: `Round(e)` is `ParentRound(e) + 1` when
`RoundInc(e)`, else `ParentRound(e)`; `e` is a witness iff it has no
self-parent or its round exceeds its self-parent's. -/
def roundAndWitness (n : Nat) (g : Graph) (la fd : CoordTab) (rt : RTab)
    (e : HgEvent) : Nat × Bool :=
  let pr := ParentRound rt e
  let r := (if RoundInc n g la fd rt e then pr + 1 else pr).toNat
  let wit :=
    match e.selfParent with
    | none => true
    | some sp => roundOf rt sp < (r : Int)
  (r, wit)

/-- Modelled from the spec: `DivideRounds` decorates every event, in
insertion order, with its round number and witness flag. -/
def DivideRounds (n : Nat) (g : Graph) (la fd : CoordTab) : RTab :=
  g.foldl (fun rt e => rt ++ [(e.eid, roundAndWitness n g la fd rt e)]) []

def maxRound (rt : RTab) : Nat := rt.foldl (fun m p => max m p.2.1) 0

/-- Number of rounds held by the store after `DivideRounds` (rounds are
created densely from `0`). -/
def storeRounds (rt : RTab) : Nat := maxRound rt + 1

def tallyVotes (n : Nat) (g : Graph) (la fd : CoordTab)
    (prev : List (Nat × Bool)) (y : Nat) : Nat × Nat :=
  prev.foldl (fun acc wv =>
    if StronglySee n g la fd y wv.1 then
      if wv.2 then (acc.1 + 1, acc.2) else (acc.1, acc.2 + 1)
    else acc) (0, 0)

/-- Modelled from the spec: the fixed coin-round interval `c = 10`. -/
def coinRoundInterval : Nat := 10

/-- Modelled from the spec: the pseudo-random coin drawn from the
middle bit of the voter's signature. -/
def middleBit (g : Graph) (y : Nat) : Bool :=
  match getEvent g y with
  | some e => e.sig / 8 % 2 == 1
  | none => false

/-- Modelled from the spec: one voting round at distance `d > 1` for
the fame of `x`.  Witnesses are scanned in canonical order; each
tallies the previous round's votes over the witnesses it strongly sees;
in a non-coin round a super-majority tally decides (returned as
`.error`), otherwise the majority (or, in an undecided coin round, the
coin) becomes the witness's own vote. -/
def fameRoundStep (n : Nat) (g : Graph) (la fd : CoordTab) (d : Nat)
    (prev : List (Nat × Bool)) :
    List Nat → List (Nat × Bool) → Except Bool (List (Nat × Bool))
  | [], acc => .ok acc
  | y :: rest, acc =>
    let t2 := tallyVotes n g la fd prev y
    let v : Bool := t2.2 ≤ t2.1
    let t := max t2.1 t2.2
    if d % coinRoundInterval != 0 then
      if superMajority n ≤ t then .error v
      else fameRoundStep n g la fd d prev rest (acc ++ [(y, v)])
    else
      if superMajority n ≤ t then fameRoundStep n g la fd d prev rest (acc ++ [(y, v)])
      else fameRoundStep n g la fd d prev rest (acc ++ [(y, middleBit g y)])

/-- Modelled from the spec: scan the rounds after `i` (the round of the
witness `x`); at distance `1` the witnesses vote by sight, later rounds
tally and possibly decide. -/
def fameScan (n : Nat) (g : Graph) (la fd : CoordTab) (rt : RTab) (x i : Nat) :
    List Nat → List (Nat × Bool) → Option Bool
  | [], _ => none
  | j :: rest, prev =>
    let ws := witnessesOfRound rt j
    if j == i + 1 then
      fameScan n g la fd rt x i rest (ws.map (fun y => (y, See g la y x)))
    else
      match fameRoundStep n g la fd (j - i) prev ws [] with
      | .error v => some v
      | .ok nv => fameScan n g la fd rt x i rest nv

/-- Modelled from the spec: `DecideFame` decides the fame of every
witness it can; the result maps decided witnesses to their fame. -/
def DecideFame (n : Nat) (g : Graph) (la fd : CoordTab) (rt : RTab) :
    List (Nat × Bool) :=
  rt.filterMap (fun p =>
    if p.2.2 then
      match fameScan n g la fd rt p.1 p.2.1
          ((List.range (maxRound rt + 1)).filter (fun j => p.2.1 < j)) [] with
      | some v => some (p.1, v)
      | none => none
    else none)

/-- Rounds that still contain an undecided witness, in ascending order. -/
def UndecidedRounds (rt : RTab) (fame : List (Nat × Bool)) : List Nat :=
  (List.range (maxRound rt + 1)).filter
    (fun r => (witnessesOfRound rt r).any (fun h => (fame.lookup h).isNone))

def famousOfRound (rt : RTab) (fame : List (Nat × Bool)) (r : Nat) : List Nat :=
  (witnessesOfRound rt r).filter (fun h => fame.lookup h == some true)

/-- Modelled from the spec: scan the rounds after the event's own round
for the first fully decided round all of whose famous witnesses see the
event; stop at the first not fully decided round. -/
def rrScan (n : Nat) (g : Graph) (la fd : CoordTab) (rt : RTab)
    (fame : List (Nat × Bool)) (x : Nat) : List Nat → Option Nat
  | [] => none
  | i :: rest =>
    let ws := witnessesOfRound rt i
    if ws.all (fun h => (fame.lookup h).isSome) then
      let fws := famousOfRound rt fame i
      if !fws.isEmpty && fws.all (fun w => See g la w x) then some i
      else rrScan n g la fd rt fame x rest
    else none

/-- Modelled from the spec: `DecideRoundReceived` for a single event. -/
def RoundReceived (n : Nat) (g : Graph) (la fd : CoordTab) (rt : RTab)
    (fame : List (Nat × Bool)) (x : Nat) : Option Nat :=
  match rt.lookup x with
  | none => none
  | some (r, _) =>
    rrScan n g la fd rt fame x
      ((List.range (maxRound rt + 1)).filter (fun i => r < i))

/-- Median element (upper median) of the timestamps of the named events. -/
def medianTs (g : Graph) (hs : List Nat) : Nat :=
  let tss := (hs.filterMap (fun h => (getEvent g h).map (fun e => e.ts))).insertionSort (· ≤ ·)
  tss.getD (tss.length / 2) 0

/-- Modelled from the spec: the consensus timestamp of `x` is the
median of the timestamps of `OldestSelfAncestorToSee(w, x)` over the
famous witnesses `w` of `x`'s received round. -/
def ConsensusTimestamp (g : Graph) (fd : CoordTab) (rt : RTab)
    (fame : List (Nat × Bool)) (x rr : Nat) : Nat :=
  medianTs g ((famousOfRound rt fame rr).filterMap
    (fun w => OldestSelfAncestorToSee g fd w x))

/-- Modelled from the spec: the signature whitened with a mask derived
from the sorted signatures of the received round's famous witnesses. -/
def whitenedSig (g : Graph) (rt : RTab) (fame : List (Nat × Bool))
    (x rr : Nat) : Nat :=
  let mask := List.foldl Nat.xor 0
    (((famousOfRound rt fame rr).filterMap
      (fun h => (getEvent g h).map (fun e => e.sig))).insertionSort (· ≤ ·))
  match getEvent g x with
  | some e => Nat.xor e.sig mask
  | none => 0

/-- Consensus sort key: `(eid, roundReceived, consensusTimestamp, whitenedSignature)`. -/
abbrev CKey := Nat × Nat × Nat × Nat

def keyLeB (a b : CKey) : Bool :=
  a.2.1 < b.2.1 ||
    (a.2.1 == b.2.1 &&
      (a.2.2.1 < b.2.2.1 ||
        (a.2.2.1 == b.2.2.1 && a.2.2.2 ≤ b.2.2.2)))

def insertByKey (a : CKey) : List CKey → List CKey
  | [] => [a]
  | b :: rest => if keyLeB a b then a :: b :: rest else b :: insertByKey a rest

def sortByKey : List CKey → List CKey
  | [] => []
  | a :: rest => insertByKey a (sortByKey rest)

def consensusKeys (n : Nat) (g : Graph) (la fd : CoordTab) (rt : RTab)
    (fame : List (Nat × Bool)) : List CKey :=
  g.filterMap (fun e =>
    match RoundReceived n g la fd rt fame e.eid with
    | some r => some (e.eid, r, ConsensusTimestamp g fd rt fame e.eid r,
        whitenedSig g rt fame e.eid r)
    | none => none)

/-- Modelled from the spec: `FindOrder` emits the round-received events
ordered by round received, then consensus timestamp, then whitened
signature. -/
def FindOrder (n : Nat) (g : Graph) (la fd : CoordTab) (rt : RTab)
    (fame : List (Nat × Bool)) : List Nat :=
  (sortByKey (consensusKeys n g la fd rt fame)).map (fun k => k.1)

def isLoaded (e : HgEvent) : Bool := !e.payload.isEmpty

/-- Loaded (payload-bearing) events not yet emitted by `FindOrder`. -/
def remainingLoaded (n : Nat) (g : Graph) (la fd : CoordTab) (rt : RTab)
    (fame : List (Nat × Bool)) : List Nat :=
  g.filterMap (fun e =>
    if isLoaded e && (RoundReceived n g la fd rt fame e.eid).isNone
    then some e.eid else none)

/-- The engine's `PendingLoadedEvents` counter after the sweep: loaded
events inserted minus loaded events emitted. -/
def PendingLoadedEvents (n : Nat) (g : Graph) (la fd : CoordTab) (rt : RTab)
    (fame : List (Nat × Bool)) : Nat :=
  (remainingLoaded n g la fd rt fame).length

/-- Amended `Known`: the number of events observed from each
participant (one more than the highest observed index). -/
def Known (g : Graph) (p : Nat) : Nat :=
  (g.filter (fun e => e.creator == p)).length

/-- `Known` as the spec words it: the highest index observed from the
participant, `-1` if none. -/
def knownBySpec (g : Graph) (p : Nat) : Int :=
  g.foldl (fun m e => if e.creator == p then max m (e.index : Int) else m) (-1)

/-- The complete sweep on the canonical graph: rounds, fame, order. -/
def hgPipeline (n : Nat) (g : Graph) : List Nat :=
  let la := laTable n g
  let fd := fdTable n g la
  let rt := DivideRounds n g la fd
  let fame := DecideFame n g la fd rt
  FindOrder n g la fd rt fame

/-- The `consensusEvents` sequence an engine reports after inserting a
set of events and running the sweep to completion. -/
def hgConsensus (n : Nat) (g : Graph) : List Nat := hgPipeline n (canon g)

inductive InsertErr where
  | forkDetected
  | unknownParent
  | indexGap
deriving DecidableEq, Repr

def checkOtherParent (g : Graph) (e : HgEvent) : Except InsertErr Graph :=
  match e.otherParent with
  | none => .ok (g ++ [e])
  | some p => if (getEvent g p).isSome then .ok (g ++ [e]) else .error .unknownParent

/-- Modelled from the spec: `InsertEvent` validates an event against
the store.  A re-insert of a stored event is an idempotent no-op; a
distinct event reusing a stored `(creatorId, index)` pair is a fork and
is rejected; the self-parent must be stored with the same creator and
the preceding index; the other-parent, when named, must be stored. -/
def InsertEvent (g : Graph) (e : HgEvent) : Except InsertErr Graph :=
  if g.any (fun x => x.eid == e.eid) then .ok g
  else if g.any (fun x => x.creator == e.creator && x.index == e.index) then
    .error .forkDetected
  else
    match e.selfParent with
    | none => if e.index == 0 then checkOtherParent g e else .error .indexGap
    | some p =>
      match getEvent g p with
      | none => .error .unknownParent
      | some sp =>
        if sp.creator == e.creator && e.index == sp.index + 1 then
          checkOtherParent g e
        else .error .indexGap

/-- Feed a list of events to the engine; rejected events leave the
store unchanged. -/
def insertAll (g : Graph) (evs : List HgEvent) : Graph :=
  evs.foldl (fun acc e =>
    match InsertEvent acc e with
    | .ok g2 => g2
    | .error _ => acc) g

/-- The insertion order respects the graph: every parent reference is
to an already inserted event. -/
def topoOk : List Nat → List HgEvent → Bool
  | _, [] => true
  | seen, e :: rest =>
    (match e.selfParent with | none => true | some p => seen.contains p) &&
    (match e.otherParent with | none => true | some p => seen.contains p) &&
    topoOk (seen ++ [e.eid]) rest

/-- One event is well formed relative to the set it belongs to: a
genesis event has index `0`; a self-parent is an event of the same
creator with the preceding index created earlier; an other-parent is an
event created earlier. -/
def validEvent (evs : List HgEvent) (e : HgEvent) : Bool :=
  (match e.selfParent with
   | none => e.index == 0
   | some p => evs.any (fun x =>
       x.eid == p && x.creator == e.creator && x.index + 1 == e.index && x.eid < e.eid)) &&
  (match e.otherParent with
   | none => true
   | some p => evs.any (fun x => x.eid == p && x.eid < e.eid))

/-- A valid event set for `n` participants: distinct content hashes,
fork-free `(creatorId, index)` pairs, known creators, well-formed
parent references. -/
def ValidEventSet (n : Nat) (evs : List HgEvent) : Prop :=
  (evs.map (fun e => e.eid)).Nodup ∧
  (evs.map (fun e => (e.creator, e.index))).Nodup ∧
  (∀ e ∈ evs, e.creator < n) ∧
  (∀ e ∈ evs, validEvent evs e = true)

instance (n : Nat) (evs : List HgEvent) : Decidable (ValidEventSet n evs) := by
  unfold ValidEventSet
  infer_instance

/-- Scenario event builder: creation id doubles as timestamp and
modelled signature. -/
def mkEv (eid creator index : Nat) (sp op : Option Nat) (pl : List (List Nat)) : HgEvent :=
  ⟨eid, creator, index, sp, op, pl, eid, eid⟩

/-- The ancestry graph of `initHashgraph` (test file): genesis
`e0,e1,e2` then the plays `e01, s20, s10, s00, e20, e12`; ids follow
creation order. -/
def graphA : Graph :=
  [mkEv 0 0 0 none none [],
   mkEv 1 1 0 none none [],
   mkEv 2 2 0 none none [],
   mkEv 3 0 1 (some 0) (some 1) [],
   mkEv 4 2 1 (some 2) none [],
   mkEv 5 1 1 (some 1) none [],
   mkEv 6 0 2 (some 3) none [],
   mkEv 7 2 2 (some 4) (some 6) [],
   mkEv 8 1 2 (some 5) (some 7) []]

def graphA_la : CoordTab := laTable 3 graphA

/-- The round graph of `initRoundHashgraph` (test file): genesis
`e0,e1,e2` then `e10, s20, s00, e21, e02, s10, f1, s11`; `s11` carries
payload "abc". -/
def graphB : Graph :=
  [mkEv 0 0 0 none none [],
   mkEv 1 1 0 none none [],
   mkEv 2 2 0 none none [],
   mkEv 3 1 1 (some 1) (some 0) [],
   mkEv 4 2 1 (some 2) none [],
   mkEv 5 0 1 (some 0) none [],
   mkEv 6 2 2 (some 4) (some 3) [],
   mkEv 7 0 2 (some 5) (some 6) [],
   mkEv 8 1 2 (some 3) none [],
   mkEv 9 1 3 (some 8) (some 7) [],
   mkEv 10 1 4 (some 9) none [[97, 98, 99]]]

def graphB_la : CoordTab := laTable 3 graphB
def graphB_fd : CoordTab := fdTable 3 graphB graphB_la
def graphB_rt : RTab := DivideRounds 3 graphB graphB_la graphB_fd

/-- The consensus graph of `initConsensusHashgraph` (test file); the
payload-bearing events are `e21` (id 4), `f1b` (id 8) and `f02b`
(id 14). -/
def graphC : Graph :=
  [mkEv 0 0 0 none none [],
   mkEv 1 1 0 none none [],
   mkEv 2 2 0 none none [],
   mkEv 3 1 1 (some 1) (some 0) [],
   mkEv 4 2 1 (some 2) (some 3) [[101, 50, 49]],
   mkEv 5 2 2 (some 4) none [],
   mkEv 6 0 1 (some 0) (some 5) [],
   mkEv 7 1 2 (some 3) (some 6) [],
   mkEv 8 1 3 (some 7) none [[102, 49, 98]],
   mkEv 9 0 2 (some 6) (some 8) [],
   mkEv 10 2 3 (some 5) (some 8) [],
   mkEv 11 1 4 (some 8) (some 9) [],
   mkEv 12 2 4 (some 10) (some 11) [],
   mkEv 13 0 3 (some 9) (some 12) [],
   mkEv 14 0 4 (some 13) none [[101, 50, 49]],
   mkEv 15 1 5 (some 11) (some 14) [],
   mkEv 16 0 5 (some 14) (some 15) [],
   mkEv 17 2 5 (some 12) (some 15) [],
   mkEv 18 1 6 (some 15) (some 16) [],
   mkEv 19 0 6 (some 16) (some 12) [],
   mkEv 20 2 6 (some 17) (some 18) [],
   mkEv 21 0 7 (some 19) (some 20) [],
   mkEv 22 1 7 (some 18) (some 21) [],
   mkEv 23 0 8 (some 21) (some 22) [],
   mkEv 24 2 7 (some 20) (some 22) []]

def graphC_la : CoordTab := laTable 3 graphC
def graphC_fd : CoordTab := fdTable 3 graphC graphC_la
def graphC_rt : RTab := DivideRounds 3 graphC graphC_la graphC_fd
def graphC_fame : List (Nat × Bool) := DecideFame 3 graphC graphC_la graphC_fd graphC_rt

/-- `RoundInc` queried by event id, as the tests do. -/
def RoundIncById (n : Nat) (g : Graph) (la fd : CoordTab) (rt : RTab) (x : Nat) : Bool :=
  match getEvent g x with
  | some e => RoundInc n g la fd rt e
  | none => false

/-- The consensus-order output on the consensus graph. -/
def graphC_order : List Nat :=
  FindOrder 3 graphC graphC_la graphC_fd graphC_rt graphC_fame

/-- The four-participant graph of `initFunkyHashgraph` (test file). -/
def graphF : Graph :=
  [mkEv 0 0 0 none none [],
   mkEv 1 1 0 none none [],
   mkEv 2 2 0 none none [],
   mkEv 3 3 0 none none [],
   mkEv 4 2 1 (some 2) (some 3) [],
   mkEv 5 1 1 (some 1) (some 4) [],
   mkEv 6 0 1 (some 0) none [],
   mkEv 7 1 2 (some 5) (some 6) [],
   mkEv 8 2 2 (some 4) (some 5) [],
   mkEv 9 3 1 (some 3) (some 8) [],
   mkEv 10 2 3 (some 8) (some 9) [],
   mkEv 11 1 3 (some 7) (some 10) [],
   mkEv 12 0 2 (some 6) (some 11) [],
   mkEv 13 2 4 (some 10) (some 11) [],
   mkEv 14 3 2 (some 9) (some 13) [],
   mkEv 15 1 4 (some 11) (some 14) [],
   mkEv 16 0 3 (some 12) none [],
   mkEv 17 1 5 (some 15) (some 16) [],
   mkEv 18 2 5 (some 13) (some 17) [],
   mkEv 19 0 4 (some 16) (some 18) [],
   mkEv 20 1 6 (some 17) (some 19) [],
   mkEv 21 2 6 (some 18) (some 20) [],
   mkEv 22 0 5 (some 19) (some 21) [],
   mkEv 23 3 3 (some 14) (some 21) [],
   mkEv 24 1 7 (some 20) (some 23) [],
   mkEv 25 0 6 (some 22) (some 24) [],
   mkEv 26 1 8 (some 24) (some 25) [],
   mkEv 27 2 7 (some 21) (some 26) [],
   mkEv 28 3 4 (some 23) (some 27) [],
   mkEv 29 2 8 (some 27) (some 28) [],
   mkEv 30 1 9 (some 26) (some 29) []]

def graphF_la : CoordTab := laTable 4 graphF
def graphF_fd : CoordTab := fdTable 4 graphF graphF_la
def graphF_rt : RTab := DivideRounds 4 graphF graphF_la graphF_fd
def graphF_fame : List (Nat × Bool) := DecideFame 4 graphF graphF_la graphF_fd graphF_rt

/-- The genesis events of the fork scenario (`TestFork`). -/
def forkGenesis : Graph :=
  [mkEv 0 0 0 none none [],
   mkEv 1 1 0 none none [],
   mkEv 2 2 0 none none []]

/-- The forked event `a`: creator 2, index 0 again, but a different
payload and hence a different content hash than `e2`. -/
def forkEventA : HgEvent := mkEv 3 2 0 none none [[121, 111]]

/-- Event `e01` of the fork scenario: other-parent is the rejected `a`. -/
def forkEvent01 : HgEvent := mkEv 4 0 1 (some 0) (some 3) []

/-- Event `e20` of the fork scenario: other-parent is the rejected `e01`. -/
def forkEvent20 : HgEvent := mkEv 5 2 1 (some 2) (some 4) []

end Hashgraph

namespace Conflux

/-- A block of the Conflux DAG (`conflux.go`): content hash (the zero
hash marks the virtual block), parent and child hashes, the privot
parent, weight and the epoch order field. -/
structure CBlock where
  hash : Nat
  parents : List Nat
  children : List Nat
  privot : Option Nat
  weight : Nat
  order : Nat
deriving DecidableEq, Repr

/-- The slice of the `BlockDAG` that `Conflux` reads: the block table,
the genesis hash and the current tip set. -/
structure BlockDAGModel where
  genesisHash : Nat
  blocks : List (Nat × CBlock)
  tips : List Nat
deriving DecidableEq, Repr

/-- The `Conflux` instance state: the DAG, `privotTip` and the computed
total `order`. -/
structure ConfluxState where
  bd : BlockDAGModel
  privotTip : Option Nat
  order : List Nat
deriving DecidableEq, Repr

def getBlock (s : ConfluxState) (h : Nat) : Option CBlock :=
  s.bd.blocks.lookup h

def setBlock (s : ConfluxState) (h : Nat) (b : CBlock) : ConfluxState :=
  { s with bd := { s.bd with
      blocks := s.bd.blocks.map (fun p => if p.1 == h then (p.1, b) else p) } }

/-- `isVirtualBlock`: the virtual block carries the zero hash. -/
def isVirtualBlock (b : CBlock) : Bool := b.hash == 0

/-- The weight recomputation inside `updatePrivot`: sum the weights of
the parent's children whose privot is the parent.  A missing child
block or a child with no privot is a runtime panic in the source,
modelled as an error. -/
def privotWeight (s : ConfluxState) (parent : CBlock) : Except String Nat :=
  parent.children.foldlM (fun acc h =>
    match getBlock s h with
    | none => .error "missing child block"
    | some blk =>
      match blk.privot with
      | none => .error "nil privot"
      | some ph => if ph == parent.hash then pure (acc + blk.weight) else pure acc) 0

/-- `Conflux.updatePrivot`: walk up the privot chain, refreshing each
ancestor's weight.  Go's unbounded recursion is fueled. -/
def updatePrivot : Nat → ConfluxState → CBlock → Except String ConfluxState
  | 0, _, _ => .error "out of fuel"
  | fuel + 1, s, b =>
    match b.privot with
    | none => .ok s
    | some pHash =>
      match getBlock s pHash with
      | none => .error "missing privot block"
      | some parent => do
        let nw ← privotWeight s parent
        let parent2 := { parent with weight := nw + 1 }
        let s2 := setBlock s pHash parent2
        match parent2.privot with
        | some _ => updatePrivot fuel s2 parent2
        | none => .ok s2

/-- An `Epoch`: its main block and the dependency blocks swept into it. -/
structure CEpoch where
  main : CBlock
  depends : List CBlock
deriving DecidableEq, Repr

def CEpoch.hasBlock (e : CEpoch) (h : Nat) : Bool :=
  e.main.hash == h || e.depends.any (fun b => b.hash == h)

/-- Process the parents of one block inside `getEpoch`: parents in the
main chain, the previous epoch or already collected are skipped; new
ones are collected and pushed. -/
def epochParents (s : ConfluxState) (pre : CEpoch) (main : List Nat) :
    List Nat → List CBlock → List Nat → List CBlock →
    Except String (List CBlock × List Nat × List CBlock)
  | [], dep, depS, pushed => .ok (dep, depS, pushed)
  | h :: rest, dep, depS, pushed =>
    if main.contains h || pre.hasBlock h || depS.contains h then
      epochParents s pre main rest dep depS pushed
    else
      match getBlock s h with
      | none => .error "missing parent block"
      | some parent =>
        epochParents s pre main rest (dep ++ [parent]) (depS ++ [h]) (pushed ++ [parent])

/-- The worklist loop of `Conflux.getEpoch` (LIFO, as in the source). -/
def getEpochLoop (s : ConfluxState) (pre : CEpoch) (main : List Nat) :
    Nat → List CBlock → List CBlock → List Nat → Except String (List CBlock)
  | 0, _, _, _ => .error "out of fuel"
  | _ + 1, [], dep, _ => .ok dep
  | fuel + 1, blk :: chain, dep, depS => do
    let (dep2, depS2, pushed) ← epochParents s pre main blk.parents dep depS []
    getEpochLoop s pre main fuel (pushed.reverse ++ chain) dep2 depS2

/-- `Conflux.getEpoch`: collect the blocks reachable from `b` that are
neither on the main chain nor in the previous epoch. -/
def getEpoch (fuel : Nat) (s : ConfluxState) (b : CBlock) (pre : CEpoch)
    (main : List Nat) : Except String (List CBlock) :=
  getEpochLoop s pre main fuel [b] [] []

/-- `Conflux.getForwardBlocks`: the blocks of `bs` with no parent in
`bs`; a unique one is returned alone, several are returned in
ascending hash order. -/
def getForwardBlocks (s : ConfluxState) (bs : List Nat) : Except String (List CBlock) := do
  let rs ← bs.foldlM (fun acc h =>
    match getBlock s h with
    | none => .error "missing block"
    | some blk =>
      if blk.parents.any (fun p => bs.contains p) then pure acc
      else pure (acc ++ [h])) ([] : List Nat)
  match rs with
  | [] => .ok []
  | [h] =>
    match getBlock s h with
    | none => .error "missing block"
    | some b => .ok [b]
  | _ =>
    (rs.insertionSort (· ≤ ·)).foldlM (fun acc h =>
      match getBlock s h with
      | none => .error "missing block"
      | some b => pure (acc ++ [b])) []

/-- The dependency-numbering loop of `updateOrder`: repeatedly extract
the forward blocks of the remaining set and give them consecutive
orders after the previous epoch's main block. -/
def forwardLoop : Nat → ConfluxState → List Nat → Nat → Nat → List CBlock →
    Except String (List CBlock × ConfluxState)
  | 0, _, _, _, _, _ => .error "out of fuel"
  | fuel + 1, s, es, preOrder, ord, acc =>
    if es.isEmpty then .ok (acc, s)
    else do
      let fbs ← getForwardBlocks s es
      if fbs.isEmpty then .error "out of fuel"
      else
        let step := fbs.foldl (fun (st : ConfluxState × List Nat × Nat × List CBlock) fb =>
          let o2 := st.2.2.1 + 1
          let fb2 := { fb with order := preOrder + o2 }
          (setBlock st.1 fb.hash fb2, (st.2.1).filter (fun h => h != fb.hash), o2,
            st.2.2.2 ++ [fb2])) (s, es, ord, [])
        forwardLoop fuel step.1 step.2.1 preOrder step.2.2.1 (acc ++ step.2.2.2)

/-- The sequence check at the end of `updateOrder`: the epoch sequence
(`depends` then `main`) must carry consecutive orders continuing
`con.order`, else the source panics with "epoch order error";
non-virtual blocks are appended to `con.order`. -/
def appendSeq (s : ConfluxState) (ep : CEpoch) : Except String (CEpoch × ConfluxState) := do
  let seq := ep.depends ++ [ep.main]
  let startOrder := s.order.length
  let s2 ← seq.enum.foldlM (fun (st : ConfluxState) p =>
    if p.2.order != startOrder + p.1 then .error "epoch order error"
    else if isVirtualBlock p.2 then pure st
    else pure { st with order := st.order ++ [p.2.hash] }) s
  .ok (ep, s2)

/-- `Conflux.updateOrder`: number the current epoch and append it to
the total order. -/
def updateOrder (fuel : Nat) (s : ConfluxState) (b : CBlock) (pre : Option CEpoch)
    (main : List Nat) : Except String (CEpoch × ConfluxState) :=
  match pre with
  | none =>
    let b2 := { b with order := 0 }
    appendSeq (setBlock s b.hash b2) ⟨b2, []⟩
  | some preE => do
    let deps ← getEpoch fuel s b preE main
    let (deps2, s2) ←
      match deps with
      | [] => pure (([] : List CBlock), s)
      | [d] =>
        let d2 := { d with order := preE.main.order + 1 }
        pure ([d2], setBlock s d.hash d2)
      | _ => forwardLoop fuel s (deps.map (fun d => d.hash)) preE.main.order 0 []
    let b2 := { b with order := preE.main.order + 1 + deps.length }
    let s3 := setBlock s2 b.hash b2
    appendSeq s3 ⟨b2, deps2⟩

/-- The heaviest-child selection of `updateMainChain`: greater weight
wins, ties go to the smaller hash. -/
def pickNextMain (s : ConfluxState) (cs : List Nat) : Except String (Option CBlock) :=
  cs.foldlM (fun best h =>
    match getBlock s h with
    | none => .error "missing child block"
    | some child =>
      match best with
      | none => pure (some child)
      | some nm =>
        if nm.weight < child.weight then pure (some child)
        else if child.weight == nm.weight && child.hash < nm.hash then pure (some child)
        else pure (some nm)) none

/-- `Conflux.updateMainChain`: descend the main chain from `b`,
numbering each epoch; at a tip with several DAG tips outstanding, recur
once more through the virtual block. -/
def updateMainChain : Nat → ConfluxState → CBlock → Option CEpoch → List Nat →
    Except String ConfluxState
  | 0, _, _, _, _ => .error "out of fuel"
  | fuel + 1, s, b, pre, main => do
    let main2 := if main.contains b.hash then main else main ++ [b.hash]
    let (curEpoch, s2) ← updateOrder fuel s b pre main2
    if isVirtualBlock b then .ok s2
    else if b.children.isEmpty then
      let s3 := { s2 with privotTip := some b.hash }
      if 1 < s3.bd.tips.length then
        let virtualBlock : CBlock :=
          { hash := 0, parents := s3.bd.tips, children := [], privot := none,
            weight := 1, order := 0 }
        updateMainChain fuel s3 virtualBlock (some curEpoch) main2
      else .ok s3
    else
      match b.children with
      | [c] =>
        match getBlock s2 c with
        | none => .error "missing child block"
        | some child => updateMainChain fuel s2 child (some curEpoch) main2
      | cs => do
        let nm ← pickNextMain s2 cs
        match nm with
        | none => .ok s2
        | some child => updateMainChain fuel s2 child (some curEpoch) main2

/-- `Conflux.AddBlock`: a nil block is refused with `false`; otherwise
the privot weights are refreshed, the order is rebuilt from genesis and
`true` is returned. -/
def AddBlock (fuel : Nat) (s : ConfluxState) (b : Option CBlock) :
    Except String (Bool × ConfluxState) :=
  match b with
  | none => .ok (false, s)
  | some blk => do
    let s1 ← updatePrivot fuel s blk
    let s2 := { s1 with order := [] }
    match getBlock s2 s2.bd.genesisHash with
    | none => .error "missing genesis"
    | some gen => do
      let s3 ← updateMainChain fuel s2 gen none []
      pure (true, s3)

/-- A one-block DAG used to exercise `AddBlock` on a concrete input. -/
def genesisBlock : CBlock :=
  { hash := 1, parents := [], children := [], privot := none, weight := 1, order := 0 }

def state0 : ConfluxState :=
  { bd := { genesisHash := 1, blocks := [(1, genesisBlock)], tips := [1] },
    privotTip := none, order := [] }

/-- The state `AddBlock` produces from `state0` and the genesis block. -/
def state1 : ConfluxState :=
  { bd := { genesisHash := 1, blocks := [(1, genesisBlock)], tips := [1] },
    privotTip := some 1, order := [1] }

end Conflux

namespace TxV

def maxUint32 : Nat := 4294967295

/-- A transaction input: the referenced previous output's index and
the signature script. -/
structure TxInput where
  previousOutIndex : Nat
  signScript : List Nat
deriving DecidableEq, Repr

structure Tx where
  txIn : List TxInput
deriving DecidableEq, Repr

/-- `txValidateItem`: an input paired with its position in the
transaction. -/
structure TxValidateItem where
  txInIndex : Nat
  txIn : TxInput
deriving DecidableEq, Repr

/-- `txValidator.Validate`: an empty item list validates immediately
with a nil error; otherwise every item goes through the script check
(the utxo lookup and script engine are external and abstracted as the
oracle `check`) and the first failure is returned. -/
def Validate (check : TxValidateItem → Option String)
    (items : List TxValidateItem) : Option String :=
  if items.isEmpty then none
  else items.findSome? check

/-- The item-collection loop of `ValidateTransactionScripts`: inputs
whose `PreviousOut.OutIndex` is `MaxUint32` (coinbase inputs) are
skipped; the input position still advances. -/
def buildItemsFrom (i : Nat) : List TxInput → List TxValidateItem
  | [] => []
  | tin :: rest =>
    if tin.previousOutIndex == maxUint32 then buildItemsFrom (i + 1) rest
    else ⟨i, tin⟩ :: buildItemsFrom (i + 1) rest

def buildValidateItems (txIns : List TxInput) : List TxValidateItem :=
  buildItemsFrom 0 txIns

/-- `ValidateTransactionScripts`: collect the non-coinbase inputs and
validate them. -/
def ValidateTransactionScripts (check : TxValidateItem → Option String)
    (tx : Tx) : Option String :=
  Validate check (buildValidateItems tx.txIn)

end TxV

section ClaimTheorems

set_option maxRecDepth 200000

open Hashgraph Conflux TxV

/-- C6: on the ancestry graph A, `Ancestor(e01,e0)`, `Ancestor(e12,e0)`
and `SelfAncestor(e01,e0)` hold, while `Ancestor(e01,e2)` and
`SelfAncestor(e01,e1)` do not (event ids: e01 = 3, e12 = 8, e0 = 0,
e1 = 1, e2 = 2). -/
theorem claim_C6 :
    Ancestor graphA graphA_la 3 0 = true ∧
    Ancestor graphA graphA_la 8 0 = true ∧
    Ancestor graphA graphA_la 3 2 = false ∧
    SelfAncestor graphA 3 0 = true ∧
    SelfAncestor graphA 3 1 = false := by
  decide

/-- C5: on the round graph B, `DivideRounds` creates exactly 2 rounds,
round 0's witnesses are exactly e0, e1, e2 (ids 0, 1, 2) and round 1's
witness is exactly f1 (id 9); `Round(f1) = 1`, `Round(e02) = 0` (e02 =
id 7), `RoundInc(f1) = true` and `RoundInc(e02) = false`. -/
theorem claim_C5 :
    storeRounds graphB_rt = 2 ∧
    witnessesOfRound graphB_rt 0 = [0, 1, 2] ∧
    witnessesOfRound graphB_rt 1 = [9] ∧
    roundOf graphB_rt 9 = 1 ∧
    roundOf graphB_rt 7 = 0 ∧
    RoundIncById 3 graphB graphB_la graphB_fd graphB_rt 9 = true ∧
    RoundIncById 3 graphB graphB_la graphB_fd graphB_rt 7 = false := by
  decide

/-- C3: on the consensus graph, after `DivideRounds` and `DecideFame`,
each of e0, e1, e2 (ids 0, 1, 2) sits in round 0 as a witness with fame
decided `True`, and g0, g1, g2 (ids 16, 15, 17) are in round 2. -/
theorem claim_C3 :
    graphC_rt.lookup 0 = some (0, true) ∧
    graphC_rt.lookup 1 = some (0, true) ∧
    graphC_rt.lookup 2 = some (0, true) ∧
    graphC_fame.lookup 0 = some true ∧
    graphC_fame.lookup 1 = some true ∧
    graphC_fame.lookup 2 = some true ∧
    roundOf graphC_rt 16 = 2 ∧
    roundOf graphC_rt 15 = 2 ∧
    roundOf graphC_rt 17 = 2 := by
  decide

/-- C4 (counterexample): on the consensus graph the two loaded events
still pending after `FindOrder` are f1b (id 8) and f02b (id 14); e21
(id 4) is emitted with the consensus events, so the claim's "the two
remaining loaded events being e21 and f1b" is false. -/
theorem claim_C4_cex :
    remainingLoaded 3 graphC graphC_la graphC_fd graphC_rt graphC_fame = [8, 14] ∧
    (remainingLoaded 3 graphC graphC_la graphC_fd graphC_rt graphC_fame).contains 4 = false ∧
    graphC_order.contains 4 = true := by
  decide

/-- C4 (amended): after `FindOrder` on the consensus graph the
consensus sequence has length 7, starts with e0 (id 0) and ends with
e02 (id 6); `PendingLoadedEvents = 2`, the two remaining loaded events
being the payload-bearing events f1b (id 8) and f02b (id 14). -/
theorem claim_C4 :
    graphC_order.length = 7 ∧
    graphC_order.head? = some 0 ∧
    graphC_order.getLast? = some 6 ∧
    PendingLoadedEvents 3 graphC graphC_la graphC_fd graphC_rt graphC_fame = 2 ∧
    remainingLoaded 3 graphC graphC_la graphC_fd graphC_rt graphC_fame = [8, 14] := by
  decide

/-- C7 (counterexample): with `Known` read as the claim words it (the
highest index observed from the participant), participant 0 of the
consensus graph yields 8, not the asserted 9. -/
theorem claim_C7_cex :
    knownBySpec graphC 0 = 8 ∧ (8 : Int) ≠ 9 := by
  decide

/-- C7 (amended): `Known` maps each participant to the number of events
observed from it (one more than the highest observed index); on the
consensus graph it returns 9, 8, 8 for participants 0, 1, 2. -/
theorem claim_C7 :
    Known graphC 0 = 9 ∧ Known graphC 1 = 8 ∧ Known graphC 2 = 8 ∧
    Known graphC 0 = (knownBySpec graphC 0 + 1).toNat ∧
    Known graphC 1 = (knownBySpec graphC 1 + 1).toNat ∧
    Known graphC 2 = (knownBySpec graphC 2 + 1).toNat := by
  decide

/-- C8: on the funky graph, `DivideRounds` creates exactly 6 rounds and
after `DecideFame` the undecided rounds are exactly 4 and 5. -/
theorem claim_C8 :
    storeRounds graphF_rt = 6 ∧
    UndecidedRounds graphF_rt graphF_fame = [4, 5] := by
  decide



/-- C2: inserting an event whose `(creatorId, index)` pair is already
used by a different accepted event fails with `ForkDetected` and leaves
the store unchanged; in the fork scenario, the insert of `a` (creator
2, index 0, differing from the accepted e2) fails with `ForkDetected`,
and the dependent inserts of e01 and e20 also return errors. -/
theorem claim_C2 :
    (∀ (g : Graph) (e : HgEvent),
      (∀ x ∈ g, x.eid ≠ e.eid) →
      (∃ x ∈ g, x.creator = e.creator ∧ x.index = e.index) →
      InsertEvent g e = .error .forkDetected) ∧
    InsertEvent (insertAll [] forkGenesis) forkEventA = .error .forkDetected ∧
    InsertEvent (insertAll [] forkGenesis) forkEvent01 = .error .unknownParent ∧
    InsertEvent (insertAll [] forkGenesis) forkEvent20 = .error .unknownParent := by
  refine ⟨fun g e h1 h2 => ?_, rfl, rfl, rfl⟩
  have ha : g.any (fun x => x.eid == e.eid) = false := by
    rw [List.any_eq_false]
    intro x hx
    simpa using h1 x hx
  have hb : g.any (fun x => x.creator == e.creator && x.index == e.index) = true := by
    rw [List.any_eq_true]
    obtain ⟨x, hx, hc, hi⟩ := h2
    exact ⟨x, hx, by simp [hc, hi]⟩
  simp [InsertEvent, ha, hb]

/-- C2 witness: the general fork statement applied to the concrete fork
scenario (`a` against the stored `e2`). -/
theorem claim_C2_witness :
    InsertEvent forkGenesis forkEventA = .error .forkDetected :=
  claim_C2.1 forkGenesis forkEventA (by decide)
    ⟨mkEv 2 2 0 none none [], by decide, rfl, rfl⟩
/-- Items collected by the validator loop never come from a coinbase
input (helper for C9). -/
theorem buildItemsFrom_outIndex (l : List TxInput) :
    ∀ (i : Nat) (it : TxValidateItem), it ∈ buildItemsFrom i l →
      it.txIn.previousOutIndex ≠ maxUint32 := by
  induction l with
  | nil => intro i it h; simp [buildItemsFrom] at h
  | cons tin rest ih =>
    intro i it h
    simp only [buildItemsFrom] at h
    by_cases hc : tin.previousOutIndex = maxUint32
    · simp only [hc, beq_self_eq_true, if_true] at h
      exact ih _ _ h
    · have hcb : (tin.previousOutIndex == maxUint32) = false := by simpa using hc
      simp only [hcb, Bool.false_eq_true, if_false] at h
      rcases List.mem_cons.mp h with h | h
      · rw [h]; exact hc
      · exact ih _ _ h

/-- A fully-coinbase input list produces no validation items (helper
for C9). -/
theorem buildItemsFrom_coinbase (l : List TxInput)
    (hall : ∀ tin ∈ l, tin.previousOutIndex = maxUint32) :
    ∀ i, buildItemsFrom i l = [] := by
  induction l with
  | nil => intro i; rfl
  | cons tin rest ih =>
    intro i
    have hc := hall tin (List.mem_cons_self _ _)
    simp only [buildItemsFrom, hc, beq_self_eq_true, if_true]
    exact ih (fun t ht => hall t (List.mem_cons_of_mem _ ht)) (i + 1)

/-- C9: `ValidateTransactionScripts` builds validation items only for
inputs whose `PreviousOut.OutIndex` differs from `MaxUint32`,
`Validate` on an empty item list returns nil, and hence a transaction
all of whose inputs are coinbase inputs validates with a nil error. -/
theorem claim_C9 :
    (∀ (txIns : List TxInput) (it : TxValidateItem),
      it ∈ buildValidateItems txIns → it.txIn.previousOutIndex ≠ maxUint32) ∧
    (∀ check : TxValidateItem → Option String, Validate check [] = none) ∧
    (∀ (check : TxValidateItem → Option String) (tx : Tx),
      (∀ tin ∈ tx.txIn, tin.previousOutIndex = maxUint32) →
      ValidateTransactionScripts check tx = none) := by
  refine ⟨fun txIns it h => buildItemsFrom_outIndex txIns 0 it h, fun check => rfl,
    fun check tx hall => ?_⟩
  unfold ValidateTransactionScripts buildValidateItems
  rw [buildItemsFrom_coinbase tx.txIn hall 0]
  rfl

/-- C9 witness: the theorem applied to a one-input transaction: a
non-coinbase input yields an item with its out-index, the empty list
validates, and the all-coinbase transaction validates with nil. -/
theorem claim_C9_witness :
    ((⟨0, ⟨7, []⟩⟩ : TxValidateItem)).txIn.previousOutIndex ≠ maxUint32 ∧
    Validate (fun _ => some "bad script") [] = none ∧
    ValidateTransactionScripts (fun _ => some "bad script") ⟨[⟨maxUint32, []⟩]⟩ = none :=
  ⟨claim_C9.1 [⟨7, []⟩] ⟨0, ⟨7, []⟩⟩ (by decide),
   claim_C9.2.1 (fun _ => some "bad script"),
   claim_C9.2.2 (fun _ => some "bad script") ⟨[⟨maxUint32, []⟩]⟩ (by decide)⟩

/-- C10: `Conflux.AddBlock` returns `false` on a nil block, leaving the
state (order and privot tip) unchanged, and whenever it returns on a
non-nil block it returns `true`. -/
theorem claim_C10 :
    (∀ (fuel : Nat) (s : ConfluxState), AddBlock fuel s none = .ok (false, s)) ∧
    (∀ (fuel : Nat) (s : ConfluxState) (blk : CBlock) (r : Bool × ConfluxState),
      AddBlock fuel s (some blk) = .ok r → r.1 = true) := by
  refine ⟨fun fuel s => rfl, fun fuel s blk r h => ?_⟩
  simp only [AddBlock, bind, Except.bind] at h
  split at h
  · exact absurd h (by simp)
  · split at h
    · exact absurd h (by simp)
    · split at h
      · exact absurd h (by simp)
      · simp only [pure, Except.pure, Except.ok.injEq] at h
        rw [← h]

/-- C10 witness: the theorem applied to the one-block DAG: the nil
block is refused with the state unchanged, and the accepted genesis
block run returns `true`. -/
theorem claim_C10_witness :
    AddBlock 0 state0 none = .ok (false, state0) ∧
    ((true, state1) : Bool × ConfluxState).1 = true :=
  ⟨claim_C10.1 0 state0, claim_C10.2 5 state0 genesisBlock (true, state1) rfl⟩

/-- Helper for C1: in an id-nodup graph, `find?` by a member's id
returns that member. -/
theorem find_eid_eq_of_mem {g : Graph} {e : HgEvent}
    (hn : (g.map (fun x => x.eid)).Nodup) (he : e ∈ g) :
    g.find? (fun x => x.eid == e.eid) = some e := by
  induction g with
  | nil => cases he
  | cons a rest ih =>
    have hn2 : (a.eid :: rest.map (fun x => x.eid)).Nodup := by simpa using hn
    obtain ⟨hnotin, hrest⟩ := List.nodup_cons.mp hn2
    rcases List.mem_cons.mp he with rfl | hmem
    · simp [List.find?]
    · have hne : a.eid ≠ e.eid := by
        intro hEq
        exact hnotin (hEq ▸ List.mem_map.mpr ⟨e, hmem, rfl⟩)
      have hbeq : (a.eid == e.eid) = false := by simpa using hne
      simp only [List.find?, hbeq]
      exact ih hrest hmem

/-- Helper for C1: `find?` by id agrees across permutations of an
id-nodup graph. -/
theorem find_eid_perm {g1 g2 : Graph} (hp : g1.Perm g2)
    (hn : (g1.map (fun x => x.eid)).Nodup) (i : Nat) :
    g1.find? (fun x => x.eid == i) = g2.find? (fun x => x.eid == i) := by
  have hn2 : (g2.map (fun x => x.eid)).Nodup := ((hp.map _).nodup_iff).mp hn
  cases hf : g1.find? (fun x => x.eid == i) with
  | some e =>
    have he1 : e ∈ g1 := List.mem_of_find?_eq_some hf
    have heid : e.eid = i := by simpa using List.find?_some hf
    have he2 : e ∈ g2 := hp.mem_iff.mp he1
    rw [← heid]
    exact (find_eid_eq_of_mem hn2 he2).symm
  | none =>
    have hall := List.find?_eq_none.mp hf
    symm
    rw [List.find?_eq_none]
    intro x hx
    exact hall x (hp.mem_iff.mpr hx)

/-- Helper for C1: the canonical graph depends only on the accepted
event set, not on the order it is held in. -/
theorem canon_perm {g1 g2 : Graph} (hp : g1.Perm g2)
    (hn : (g1.map (fun e => e.eid)).Nodup) :
    canon g1 = canon g2 := by
  unfold canon
  have hsort : (g1.map (fun e => e.eid)).insertionSort (· ≤ ·)
      = (g2.map (fun e => e.eid)).insertionSort (· ≤ ·) := by
    have hperm : ((g1.map (fun e => e.eid)).insertionSort (· ≤ ·)).Perm
        ((g2.map (fun e => e.eid)).insertionSort (· ≤ ·)) :=
      (List.perm_insertionSort _ _).trans
        ((hp.map _).trans (List.perm_insertionSort _ _).symm)
    exact @List.eq_of_perm_of_sorted Nat (· ≤ ·) inferInstance _ _ hperm
      (List.sorted_insertionSort _ _) (List.sorted_insertionSort _ _)
  rw [hsort]
  exact List.filterMap_congr (fun i _ => find_eid_perm hp hn i)

/-- Helper for C1: feeding a valid event set in any parent-respecting
order accepts every event, so the final store holds exactly the fed
events in their insertion order. -/
theorem insertAll_topo (evs : List HgEvent)
    (hids : (evs.map (fun e => e.eid)).Nodup)
    (hpairs : (evs.map (fun e => (e.creator, e.index))).Nodup)
    (hval : ∀ e ∈ evs, validEvent evs e = true) :
    ∀ (o g : Graph), (∀ x ∈ g, x ∈ evs) → (∀ x ∈ o, x ∈ evs) →
      ((g ++ o).map (fun e => e.eid)).Nodup →
      topoOk (g.map (fun e => e.eid)) o = true →
      insertAll g o = g ++ o := by
  intro o
  induction o with
  | nil => intro g _ _ _ _; simp [insertAll]
  | cons e rest ih =>
    intro g hg ho hnod htopo
    simp only [topoOk, Bool.and_eq_true] at htopo
    obtain ⟨⟨hspT, hopT⟩, htopo2⟩ := htopo
    have heEvs : e ∈ evs := ho e (List.mem_cons_self _ _)
    have hrestEvs : ∀ x ∈ rest, x ∈ evs := fun x hx => ho x (List.mem_cons_of_mem _ hx)
    have hnodSplit := List.nodup_append.mp (by simpa [List.map_append] using hnod)
    have heidNotG : e.eid ∉ g.map (fun x => x.eid) := by
      intro hmem
      exact hnodSplit.2.2 hmem (by simp)
    have hany1 : (g.any (fun x => x.eid == e.eid)) = false := by
      rw [List.any_eq_false]
      intro x hx hbe
      exact heidNotG (List.mem_map.mpr ⟨x, hx, by simpa using hbe⟩)
    have hany2 : (g.any (fun x => x.creator == e.creator && x.index == e.index)) = false := by
      rw [List.any_eq_false]
      intro x hx hbe
      simp only [Bool.and_eq_true, beq_iff_eq] at hbe
      have hxe : x ≠ e := by
        intro hEq
        exact heidNotG (List.mem_map.mpr ⟨x, hx, by rw [hEq]⟩)
      exact hxe (List.inj_on_of_nodup_map hpairs (hg x hx) heEvs (by
        simp [hbe.1, hbe.2]))
    have hvalE := hval e heEvs
    simp only [validEvent, Bool.and_eq_true] at hvalE
    obtain ⟨hvs, hvo⟩ := hvalE
    have hother : checkOtherParent g e = .ok (g ++ [e]) := by
      cases hop : e.otherParent with
      | none => simp [checkOtherParent, hop]
      | some p =>
        rw [hop] at hopT
        have hpmem : p ∈ g.map (fun x => x.eid) := by simpa using hopT
        obtain ⟨y, hy, hyp⟩ := List.mem_map.mp hpmem
        have hget : getEvent g p = some y := by
          unfold getEvent
          rw [← hyp]
          exact find_eid_eq_of_mem hnodSplit.1 hy
        simp [checkOtherParent, hop, hget]
    have hins : InsertEvent g e = .ok (g ++ [e]) := by
      cases hsp : e.selfParent with
      | none =>
        rw [hsp] at hvs
        have hvz : (e.index == 0) = true := hvs
        simp [InsertEvent, hany1, hany2, hsp, hvz, hother]
      | some p =>
        rw [hsp] at hvs hspT
        have hpmem : p ∈ g.map (fun x => x.eid) := by simpa using hspT
        obtain ⟨y, hy, hyp⟩ := List.mem_map.mp hpmem
        have hget : getEvent g p = some y := by
          unfold getEvent
          rw [← hyp]
          exact find_eid_eq_of_mem hnodSplit.1 hy
        simp only [List.any_eq_true, Bool.and_eq_true, beq_iff_eq,
          decide_eq_true_eq] at hvs
        obtain ⟨x, hxEvs, ⟨⟨hxp, hxc⟩, hxi⟩, _⟩ := hvs
        have hyx : y = x :=
          List.inj_on_of_nodup_map hids (hg y hy) hxEvs (by rw [hyp, hxp])
        have hcond : (y.creator == e.creator && e.index == y.index + 1) = true := by
          simp [hyx, hxc, ← hxi]
        simp [InsertEvent, hany1, hany2, hsp, hget, hcond, hother]
    have hstep : insertAll g (e :: rest) = insertAll (g ++ [e]) rest := by
      simp [insertAll, hins]
    rw [hstep, ih (g ++ [e])
      (by
        intro x hx
        rcases List.mem_append.mp hx with hx | hx
        · exact hg x hx
        · exact (List.mem_singleton.mp hx) ▸ heEvs)
      hrestEvs
      (by
        have hr : (g ++ [e]) ++ rest = g ++ e :: rest := by simp
        rw [hr]
        exact hnod)
      (by
        rw [List.map_append]
        exact htopo2)]
    simp

end ClaimTheorems
